import Mathlib

/-
Verification of the Content Ingestion & Retrieval Engine of an AI-assistant
repository.  The Python storage, ingestion, retrieval and chunking
operations are shallowly embedded as executable Lean definitions, and the
specification claims C1-C10 are settled as theorems about those
definitions.

Modelling conventions used throughout:
- Python strings are `String` (for identifiers) or `List Char` (for the
  chunker, where character-level splitting matters); timestamps are `Nat`.
- External backends (MongoDB, Qdrant, the network) are modelled by explicit
  state (`List` of records / points) plus boolean failure flags standing
  for "this backend call raises".  A Python function that catches an
  exception and falls through is modelled by a total function returning the
  fallback value; a function that lets an exception escape returns
  `Except`.
-/

set_option maxHeartbeats 1000000

/-! ## Conversation history (src/app/storage/history.py and
src/app/storage/mongo_storage.py) -/

/-- One entry of the JSON-file conversation history: the dict built by
`History.create_history` (`query_id`, `user`, `assistant answer`, `time`).
The ISO timestamp string is modelled as a `Nat` (lexicographic order on ISO
timestamps is chronological order). -/
structure HistEntry where
  query_id : String
  user : String
  answer : String
  time : Nat
deriving DecidableEq

/-- Comparison by timestamp, the sort key `lambda x: x["time"]` used in
`History.create_history`. -/
def HistEntry.timeLe (a b : HistEntry) : Prop := a.time ≤ b.time

instance : DecidableRel HistEntry.timeLe := fun a b => Nat.decLe a.time b.time

instance : IsTotal HistEntry HistEntry.timeLe := ⟨fun a b => Nat.le_total a.time b.time⟩

instance : IsTrans HistEntry HistEntry.timeLe := ⟨fun _ _ _ h1 h2 => Nat.le_trans h1 h2⟩

/-- The user's history list after appending the new entry and sorting by
`time`, as in `History.create_history` before the `[-3:]` truncation. -/
def historySorted (hist : List HistEntry) (e : HistEntry) : List HistEntry :=
  List.insertionSort HistEntry.timeLe (hist ++ [e])

/-- `History.create_history` (file-backed path), restricted to the one
user's entry list: append the new entry, sort ascending by `time`, keep the
last three (`self.history[user_id_str] = self.history[user_id_str][-3:]`). -/
def History.create_history (hist : List HistEntry) (e : HistEntry) : List HistEntry :=
  let l := historySorted hist e
  l.drop (l.length - 3)

/-- One record of the MongoDB `user_information` collection, the fields
relevant to retention (`user_id`, `question_id`, `time`). -/
structure URec where
  user_id : String
  question_id : String
  time : Nat
deriving DecidableEq

/-- Comparison by descending timestamp, the `.sort("time", -1)` order used
by `MongoManager._clean_old_user_records`. -/
def URec.timeGe (a b : URec) : Prop := b.time ≤ a.time

instance : DecidableRel URec.timeGe := fun a b => Nat.decLe b.time a.time

instance : IsTotal URec URec.timeGe := ⟨fun a b => Nat.le_total b.time a.time⟩

instance : IsTrans URec URec.timeGe := ⟨fun _ _ _ h1 h2 => Nat.le_trans h2 h1⟩

/-- `MongoManager._clean_old_user_records`, restricted to one user's
records: sort by time descending and delete every record beyond the third,
keeping the 3 most recent.  The surviving set is represented sorted by
recency (deletion does not depend on storage order). -/
def MongoManager.clean_old_user_records (recs : List URec) : List URec :=
  let sorted := List.insertionSort URec.timeGe recs
  if 3 < sorted.length then sorted.take 3 else sorted

/-- `MongoManager.create_user_information`, restricted to one user's
records: it first calls `_clean_old_user_records` and then inserts the new
record, so the trim happens before — not after — the insertion. -/
def MongoManager.create_user_information (recs : List URec) (r : URec) : List URec :=
  MongoManager.clean_old_user_records recs ++ [r]

/-- In a `Pairwise r` list, every element of `take k` is related to every
element of `drop k`. -/
theorem pairwise_take_rel_drop {α : Type} {r : α → α → Prop} {l : List α}
    (h : List.Pairwise r l) (k : Nat) {x y : α}
    (hx : x ∈ l.take k) (hy : y ∈ l.drop k) : r x y := by
  have hl : List.Pairwise r (l.take k ++ l.drop k) := by
    rw [List.take_append_drop]; exact h
  exact (List.pairwise_append.mp hl).2.2 x hx y hy

/-- C1, counterexample: the Mongo-backed append
(`MongoManager.create_user_information`) trims to the 3 most recent records
*before* inserting, so a user who already has 3 records has 4 immediately
after the call — the stored set exceeds the cap of 3, refuting the claim
that after any append the count never exceeds the cap. -/
theorem claim_C1_counterexample :
    ¬ ((MongoManager.create_user_information
        [⟨"u", "q1", 1⟩, ⟨"u", "q2", 2⟩, ⟨"u", "q3", 3⟩] ⟨"u", "q4", 4⟩).length ≤ 3) := by
  decide

/-- C1, amended: the file-backed `History.create_history` keeps at most 3
entries and evicts exactly the oldest by timestamp; the Mongo-backed append
(`MongoManager.create_user_information`) trims before inserting, so after a
call the user's stored set can reach cap + 1 = 4 entries (never more), and
the records it deletes are the oldest by timestamp. -/
theorem claim_C1_amended :
    (∀ hist e, (History.create_history hist e).length ≤ 3) ∧
    (∀ hist e, ∀ x ∈ (historySorted hist e).take ((historySorted hist e).length - 3),
      ∀ y ∈ History.create_history hist e, x.time ≤ y.time) ∧
    (∀ recs r, (MongoManager.create_user_information recs r).length ≤ 4) ∧
    (∀ recs, ∀ x ∈ (List.insertionSort URec.timeGe recs).drop 3,
      ∀ y ∈ MongoManager.clean_old_user_records recs, x.time ≤ y.time) := by
  refine ⟨?_, ?_, ?_, ?_⟩
  · intro hist e
    simp only [History.create_history, List.length_drop]
    omega
  · intro hist e x hx y hy
    have hs : List.Sorted HistEntry.timeLe (historySorted hist e) :=
      List.sorted_insertionSort HistEntry.timeLe (hist ++ [e])
    exact pairwise_take_rel_drop hs ((historySorted hist e).length - 3) hx hy
  · intro recs r
    simp only [MongoManager.create_user_information, MongoManager.clean_old_user_records,
      List.length_append, List.length_cons, List.length_nil]
    split
    · simp only [List.length_take]
      omega
    · rename_i hle
      simp only [not_lt] at hle
      omega
  · intro recs x hx y hy
    have hs : List.Sorted URec.timeGe (List.insertionSort URec.timeGe recs) :=
      List.sorted_insertionSort URec.timeGe recs
    simp only [MongoManager.clean_old_user_records] at hy
    by_cases hlen : 3 < (List.insertionSort URec.timeGe recs).length
    · rw [if_pos hlen] at hy
      exact pairwise_take_rel_drop hs 3 hy hx
    · rw [if_neg hlen] at hy
      simp only [not_lt] at hlen
      rw [List.drop_eq_nil_of_le hlen] at hx
      simp at hx

/-- C1, witness: concrete instances of the amended theorem — a 4-entry file
history keeps the 3 newest (the evicted entry with time 1 is no newer than
the kept entry with time 5); a Mongo append onto 3 records yields 4; the
Mongo-deleted record (time 1) is no newer than any kept record (time 4). -/
theorem claim_C1_witness :
    ((⟨"a", "m", "r", 1⟩ : HistEntry) ∈
      (historySorted [⟨"c", "m", "r", 5⟩, ⟨"a", "m", "r", 1⟩, ⟨"b", "m", "r", 2⟩]
        ⟨"d", "m", "r", 3⟩).take
        ((historySorted [⟨"c", "m", "r", 5⟩, ⟨"a", "m", "r", 1⟩, ⟨"b", "m", "r", 2⟩]
          ⟨"d", "m", "r", 3⟩).length - 3)) ∧
    ((⟨"c", "m", "r", 5⟩ : HistEntry) ∈
      History.create_history [⟨"c", "m", "r", 5⟩, ⟨"a", "m", "r", 1⟩, ⟨"b", "m", "r", 2⟩]
        ⟨"d", "m", "r", 3⟩) ∧
    (1 : Nat) ≤ 5 ∧
    (MongoManager.create_user_information
      [⟨"u", "q1", 1⟩, ⟨"u", "q2", 2⟩, ⟨"u", "q3", 3⟩] ⟨"u", "q4", 4⟩).length ≤ 4 ∧
    ((⟨"u", "d", 1⟩ : URec) ∈
      (List.insertionSort URec.timeGe
        [⟨"u", "a", 4⟩, ⟨"u", "b", 3⟩, ⟨"u", "c", 2⟩, ⟨"u", "d", 1⟩]).drop 3) ∧
    ((⟨"u", "a", 4⟩ : URec) ∈ MongoManager.clean_old_user_records
      [⟨"u", "a", 4⟩, ⟨"u", "b", 3⟩, ⟨"u", "c", 2⟩, ⟨"u", "d", 1⟩]) ∧
    (1 : Nat) ≤ 4 := by
  refine ⟨by decide, by decide, ?_, ?_, by decide, by decide, ?_⟩
  · exact claim_C1_amended.2.1
      [⟨"c", "m", "r", 5⟩, ⟨"a", "m", "r", 1⟩, ⟨"b", "m", "r", 2⟩] ⟨"d", "m", "r", 3⟩
      ⟨"a", "m", "r", 1⟩ (by decide) ⟨"c", "m", "r", 5⟩ (by decide)
  · exact claim_C1_amended.2.2.1
      [⟨"u", "q1", 1⟩, ⟨"u", "q2", 2⟩, ⟨"u", "q3", 3⟩] ⟨"u", "q4", 4⟩
  · exact claim_C1_amended.2.2.2
      [⟨"u", "a", 4⟩, ⟨"u", "b", 3⟩, ⟨"u", "c", 2⟩, ⟨"u", "d", 1⟩]
      ⟨"u", "d", 1⟩ (by decide) ⟨"u", "a", 4⟩ (by decide)

/-! ## Qdrant vector store (src/app/storage/qdrant.py) -/

/-- Vector-point payload: the fields the code reads back (`user_id` and
`content_id`, absent on points not written by content ingestion, and the
chunk `text`).  Embedding vectors are abstracted away; a point's rank in a
similarity search is modelled by an explicit `score`. -/
structure Payload where
  user_id : Option String
  content_id : Option String
  text : String
deriving DecidableEq

/-- A stored vector point. -/
structure Point where
  point_id : String
  score : Nat
  payload : Payload
deriving DecidableEq

/-- `Qdrant.ensure_collection_exists`: `get_collection` first (success when
the collection is already present), and on miss `create_collection`.
`concurrentCreate` models a concurrent writer creating the collection
between the check and the create, making the create call fail with
"already exists"; the code catches that `create_error`, logs it and
re-raises it, which the model renders as `Except.error`. -/
def Qdrant.ensure_collection_exists (collections : List String) (name : String)
    (concurrentCreate : Bool) : Except String (List String) :=
  if name ∈ collections then Except.ok collections
  else if concurrentCreate then Except.error "already exists"
  else Except.ok (collections ++ [name])

/-- C3, counterexample: when the existence check misses and the create then
fails because a concurrent caller already created the collection,
`ensure_collection_exists` re-raises the create error instead of treating
it as success — the call raises, refuting the claim. -/
theorem claim_C3_counterexample :
    Qdrant.ensure_collection_exists [] "tenant" true = Except.error "already exists" := by
  rfl

/-- C3, amended: sequential idempotence holds — with no concurrent
interference, calling `ensure_collection_exists` twice never raises and
leaves exactly one collection of that name (the second call's existence
check succeeds, so it is a no-op even under concurrent interference) — but
when the existence check misses and the create fails because the collection
was concurrently created, the error is re-raised, not treated as success. -/
theorem claim_C3_amended :
    (∀ colls name, name ∉ colls →
      Qdrant.ensure_collection_exists colls name false = Except.ok (colls ++ [name]) ∧
      (∀ c, Qdrant.ensure_collection_exists (colls ++ [name]) name c =
        Except.ok (colls ++ [name])) ∧
      (colls ++ [name]).count name = 1) ∧
    (∀ colls name, name ∉ colls →
      Qdrant.ensure_collection_exists colls name true = Except.error "already exists") := by
  constructor
  · intro colls name hn
    refine ⟨?_, ?_, ?_⟩
    · simp [Qdrant.ensure_collection_exists, hn]
    · intro c
      simp [Qdrant.ensure_collection_exists]
    · rw [List.count_append]
      rw [List.count_eq_zero.mpr hn]
      simp
  · intro colls name hn
    simp [Qdrant.ensure_collection_exists, hn]

/-- C3, witness: the amended theorem at the empty collection set and the
name "tenant". -/
theorem claim_C3_witness :
    ("tenant" ∉ ([] : List String)) ∧
    Qdrant.ensure_collection_exists [] "tenant" false = Except.ok ["tenant"] ∧
    Qdrant.ensure_collection_exists ["tenant"] "tenant" false = Except.ok ["tenant"] ∧
    (["tenant"].count "tenant" = 1) ∧
    Qdrant.ensure_collection_exists [] "tenant" true = Except.error "already exists" := by
  have h := claim_C3_amended.1 [] "tenant" (by decide)
  have h2 := claim_C3_amended.2 [] "tenant" (by decide)
  exact ⟨by decide, h.1, h.2.1 false, h.2.2, h2⟩

/-! ## Ingestion state and backend failure flags
(src/app/rag/rag.py, src/app/storage/mongo_storage.py) -/

/-- A Mongo `user_content_files` record (the fields the ingestion path
reads and writes). -/
structure ContentRec where
  user_id : String
  content_id : String
  content_type : String
  filename : Option String
  url : Option String
  upload_time : Nat
deriving DecidableEq

/-- Joint storage state: the Mongo content records, the Qdrant points
(tagged with the collection holding them), and a counter of completed
extraction/analysis/embedding passes — used to state that a rejection is
decided before any such work begins. -/
structure Store where
  records : List ContentRec
  points : List (String × Payload)
  extractions : Nat
deriving DecidableEq

/-- Behaviour flags for the external backends.  `findFails` /
`countFails` / `upsertFails` / `deleteFails` mean the corresponding Mongo
or Qdrant client call raises; `urlValid` is the outcome of
`ContentProcessor.validate_url` (syntax plus HEAD probe); `extractionOk`
means text extraction and content analysis succeed. -/
structure Flags where
  findFails : Bool
  countFails : Bool
  upsertFails : Bool
  deleteFails : Bool
  urlValid : Bool
  extractionOk : Bool
deriving DecidableEq

/-- `MongoManager.get_user_content_files`: filtered find; on any exception
the `except` block returns `[]`. -/
def MongoManager.get_user_content_files (fl : Flags) (st : Store)
    (uid ctype : String) : List ContentRec :=
  if fl.findFails then []
  else st.records.filter (fun r => r.user_id = uid ∧ r.content_type = ctype)

/-- `MongoManager.get_content_count` with `content_type=None` (the way the
quota check calls it): `count_documents` over the user's records; on any
exception the `except` block returns `0`. -/
def MongoManager.get_content_count (fl : Flags) (st : Store) (uid : String) : Nat :=
  if fl.countFails then 0
  else (st.records.filter (fun r => r.user_id = uid)).length

/-- `MongoManager.add_content_file`: insert one record. -/
def MongoManager.add_content_file (st : Store) (r : ContentRec) : Store :=
  { st with records := st.records ++ [r] }

/-- `Qdrant.upsert_data` on the content path (`is_content=True`): ensure
the collection, embed the chunks in batches and upsert one point per chunk
with the metadata payload.  Any exception from the client is caught by the
function's own bare `except` block, which logs, prints the traceback and
falls through — so the model returns `none` (Python's implicit `None`)
rather than an error.  `upsertFails` models the first client call raising,
in which case no points are written. -/
def Qdrant.upsert_data (fl : Flags) (st : Store) (collection_name uid cid : String)
    (chunks : List String) : Option String × Store :=
  if fl.upsertFails then (none, st)
  else (some "Content Data Successfully Uploaded",
    { st with points := st.points ++
        chunks.map (fun text => (collection_name, ⟨some uid, some cid, text⟩)) })

/-- `Qdrant.delete_content_by_id`: delete every point of the collection
whose payload `content_id` matches.  Exceptions are caught, logged, and the
function returns `False`; it never raises. -/
def Qdrant.delete_content_by_id (fl : Flags) (st : Store)
    (collection_name cid : String) : Bool × Store :=
  if fl.deleteFails then (false, st)
  else
    (true, { st with
      points :=
        st.points.filter (fun pr => ¬(pr.1 = collection_name ∧ pr.2.content_id = some cid)) })

/-- The `text` discriminants of the response dicts returned by
`RAG.save_retrievable_docs` and `RAG.save_web_content`. -/
inductive UploadResp where
  /-- "PDF already exists." / "URL already exists." -/
  | duplicate (source : String)
  /-- "Your quota is full. Maximum 10 content items allowed." -/
  | quotaFull (count : Nat)
  /-- "Invalid URL: ..." -/
  | invalidUrl
  /-- "Failed to extract content from URL." -/
  | extractFailed
  /-- outer except: "Error uploading PDF: ..." -/
  | uploadError
  /-- "PDF uploaded successfully." / "Web content added successfully." -/
  | success (content_id : String)
deriving DecidableEq

/-- `CONTENT_LIMIT = 10` in src/app/rag/rag.py. -/
def CONTENT_LIMIT : Nat := 10

/-- The parameters `MongoManager.create_user_information` declares
(`self` aside): `user_id`, `user_question`, `memory`, `context` — and no
`**kwargs`. -/
def MongoManager.create_user_information_params : List String :=
  ["user_id", "user_question", "memory", "context"]

/-- The keyword arguments `HistoryManager.create_history` passes in its
call to `mongo_db_manager.create_user_information`. -/
def HistoryManager.create_history_call_kwargs : List String :=
  ["user_id", "user_question", "memory", "context", "graph_id_referenced"]

/-- Python raises `TypeError` at a call that passes a keyword argument the
callee does not declare.  `HistoryManager.create_history` passes
`graph_id_referenced`, which `create_user_information` does not accept, so
every call of the history append raises — this evaluates to `true`. -/
def HistoryManager.create_history_raises : Bool :=
  !(HistoryManager.create_history_call_kwargs.all
      (fun k => MongoManager.create_user_information_params.contains k))

/-- Modelled from the spec: `MemoryManager.add_memory` (its module,
app.storage.memory_layer, is not among the staged sources) is the
best-effort per-user memory write; it stores into the chat-memory
collection, which lies outside the content state modelled here, so it
leaves the content store unchanged. -/
def MemoryManager.add_memory (st : Store) : Store := st

/-- `RAG.save_retrievable_docs`: duplicate-filename check, then quota
check, then (only past both) file save, page count, text extraction and
analysis, chunk upsert into the tenant collection, the Mongo content
record, the best-effort memory write, and the history append.  The fresh
`uuid` and upload time are parameters; `chunks` stands for the chunking of
the extracted text.  An exception anywhere in the body reaches the outer
`except`, which returns the "Error uploading PDF" response while keeping
every mutation already performed; in the staged sources the history append
always raises `TypeError` (`HistoryManager.create_history_raises`), so a
gate-passing upload ends there with its record and points persisted, and
the "PDF uploaded successfully." response is unreachable. -/
def RAG.save_retrievable_docs (fl : Flags) (st : Store)
    (filename user_id content_id : String) (chunks : List String) (now : Nat) :
    UploadResp × Store :=
  let pdf_files := MongoManager.get_user_content_files fl st user_id "pdf"
  if pdf_files.any (fun r => r.filename = some filename) then
    (UploadResp.duplicate filename, st)
  else if CONTENT_LIMIT ≤ MongoManager.get_content_count fl st user_id then
    (UploadResp.quotaFull (MongoManager.get_content_count fl st user_id), st)
  else if fl.extractionOk = false then
    (UploadResp.uploadError, { st with extractions := st.extractions + 1 })
  else
    let st1 : Store := { st with extractions := st.extractions + 1 }
    let res := Qdrant.upsert_data fl st1 user_id user_id content_id chunks
    let st2 := MongoManager.add_content_file res.2
      ⟨user_id, content_id, "pdf", some filename, none, now⟩
    let st3 := MemoryManager.add_memory st2
    if HistoryManager.create_history_raises then (UploadResp.uploadError, st3)
    else (UploadResp.success content_id, st3)

/-- `RAG.save_web_content`: URL validation first, then duplicate-URL
check, then quota check, then extraction (a `None` extraction result gives
a "Failed to extract" response), analysis, chunk upsert, the Mongo record,
the memory write and the history append — the last of which always raises
in the staged sources (`HistoryManager.create_history_raises`), so the
outer `except` returns the "Error adding web content" response with all
mutations kept, and the success response is unreachable. -/
def RAG.save_web_content (fl : Flags) (st : Store)
    (url user_id content_id : String) (chunks : List String) (now : Nat) :
    UploadResp × Store :=
  if fl.urlValid = false then (UploadResp.invalidUrl, st)
  else
    let content_files := MongoManager.get_user_content_files fl st user_id "web"
    if content_files.any (fun r => r.url = some url) then
      (UploadResp.duplicate url, st)
    else if CONTENT_LIMIT ≤ MongoManager.get_content_count fl st user_id then
      (UploadResp.quotaFull (MongoManager.get_content_count fl st user_id), st)
    else if fl.extractionOk = false then
      (UploadResp.extractFailed, st)
    else
      let st1 : Store := { st with extractions := st.extractions + 1 }
      let res := Qdrant.upsert_data fl st1 user_id user_id content_id chunks
      let st2 := MongoManager.add_content_file res.2
        ⟨user_id, content_id, "web", none, some url, now⟩
      let st3 := MemoryManager.add_memory st2
      if HistoryManager.create_history_raises then (UploadResp.uploadError, st3)
      else (UploadResp.success content_id, st3)

/-- The kwarg mismatch is real: the history append raises. -/
theorem create_history_raises_eq_true :
    HistoryManager.create_history_raises = true := rfl

/-- Under a passing duplicate check, a passing quota check and successful
extraction, a PDF upload's response is the outer-except "Error uploading
PDF" one — the history append's `TypeError` forces it, whatever the
upsert outcome. -/
theorem save_pdf_response_uploadError (fl : Flags) (st : Store)
    (fn uid cid : String) (chunks : List String) (now : Nat)
    (hex : fl.extractionOk = true)
    (hdup : (MongoManager.get_user_content_files fl st uid "pdf").any
      (fun r => r.filename = some fn) = false)
    (hcount : MongoManager.get_content_count fl st uid < CONTENT_LIMIT) :
    (RAG.save_retrievable_docs fl st fn uid cid chunks now).1 =
      UploadResp.uploadError := by
  simp only [RAG.save_retrievable_docs, hdup, Bool.false_eq_true, if_false,
    if_neg (Nat.not_le.mpr hcount), hex, create_history_raises_eq_true, if_true]
  simp

/-- C2, counterexample: with the Qdrant client's upsert raising
(`upsertFails`), `Qdrant.upsert_data` catches the exception and returns
`None` — nothing is raised — and `RAG.save_retrievable_docs` ignores that
`None` and continues: it still creates the ContentRecord although no
vector points were written, and its response is identical to the response
of the very same upload with a healthy upsert (in the staged sources both
are the generic upload-error response produced by the unrelated history
`TypeError`).  The failed upsert is thus invisible to the caller and the
ingestion silently no-ops the vector write instead of surfacing a hard
error. -/
theorem claim_C2_counterexample :
    Qdrant.upsert_data ⟨false, false, true, false, true, true⟩ ⟨[], [], 0⟩ "u" "u" "c1"
      ["chunk"] = (none, ⟨[], [], 0⟩) ∧
    (RAG.save_retrievable_docs ⟨false, false, true, false, true, true⟩ ⟨[], [], 0⟩
      "a.pdf" "u" "c1" ["chunk"] 0).2.records =
      [⟨"u", "c1", "pdf", some "a.pdf", none, 0⟩] ∧
    (RAG.save_retrievable_docs ⟨false, false, true, false, true, true⟩ ⟨[], [], 0⟩
      "a.pdf" "u" "c1" ["chunk"] 0).2.points = [] ∧
    (RAG.save_retrievable_docs ⟨false, false, true, false, true, true⟩ ⟨[], [], 0⟩
      "a.pdf" "u" "c1" ["chunk"] 0).1 =
      (RAG.save_retrievable_docs ⟨false, false, false, false, true, true⟩ ⟨[], [], 0⟩
        "a.pdf" "u" "c1" ["chunk"] 0).1 := by
  exact ⟨rfl, rfl, rfl, rfl⟩

/-- C2, amended: a transport error during upsert is caught inside
`Qdrant.upsert_data`, which logs and returns `None` (never raising); the
ingestion caller ignores the result and continues, creating the
ContentRecord with no vector points, and the caller-visible response is
the same whether or not the upsert failed — in the staged sources both
runs end in the outer-except upload-error response forced by the history
append's `TypeError`, so the upsert failure itself is never surfaced.
`Qdrant.delete_content_by_id` catches transport errors and returns `False`
to its caller instead of raising. -/
theorem claim_C2_amended :
    (∀ fl st coll uid cid chunks, fl.upsertFails = true →
      Qdrant.upsert_data fl st coll uid cid chunks = (none, st)) ∧
    (∀ fl st fn uid cid chunks now, fl.upsertFails = true → fl.extractionOk = true →
      (MongoManager.get_user_content_files fl st uid "pdf").any
        (fun r => r.filename = some fn) = false →
      MongoManager.get_content_count fl st uid < CONTENT_LIMIT →
      RAG.save_retrievable_docs fl st fn uid cid chunks now =
        (UploadResp.uploadError,
          ⟨st.records ++ [⟨uid, cid, "pdf", some fn, none, now⟩],
            st.points, st.extractions + 1⟩)) ∧
    (∀ fl st fn uid cid chunks now, fl.extractionOk = true →
      (MongoManager.get_user_content_files fl st uid "pdf").any
        (fun r => r.filename = some fn) = false →
      MongoManager.get_content_count fl st uid < CONTENT_LIMIT →
      (RAG.save_retrievable_docs { fl with upsertFails := true }
        st fn uid cid chunks now).1 =
      (RAG.save_retrievable_docs { fl with upsertFails := false }
        st fn uid cid chunks now).1) ∧
    (∀ fl st coll cid, fl.deleteFails = true →
      Qdrant.delete_content_by_id fl st coll cid = (false, st)) := by
  refine ⟨?_, ?_, ?_, ?_⟩
  · intro fl st coll uid cid chunks hup
    simp [Qdrant.upsert_data, hup]
  · intro fl st fn uid cid chunks now hup hex hdup hcount
    simp only [RAG.save_retrievable_docs, hdup, Bool.false_eq_true, if_false,
      if_neg (Nat.not_le.mpr hcount), hex, Qdrant.upsert_data, hup, if_true,
      MongoManager.add_content_file, MemoryManager.add_memory,
      create_history_raises_eq_true]
    simp
  · intro fl st fn uid cid chunks now hex hdup hcount
    rw [save_pdf_response_uploadError { fl with upsertFails := true }
        st fn uid cid chunks now hex hdup hcount,
      save_pdf_response_uploadError { fl with upsertFails := false }
        st fn uid cid chunks now hex hdup hcount]
  · intro fl st coll cid hdel
    simp [Qdrant.delete_content_by_id, hdel]

/-- C2, witness: the amended theorem at a concrete failing backend — the
upsert returns `None`; the ingestion continues to the upload-error
response with the record created and no points; that response equals the
healthy-upsert run's response; a failing delete returns `False`. -/
theorem claim_C2_witness :
    Qdrant.upsert_data ⟨false, false, true, false, true, true⟩ ⟨[], [], 0⟩ "coll" "u" "c1"
      ["x"] = (none, ⟨[], [], 0⟩) ∧
    RAG.save_retrievable_docs ⟨false, false, true, false, true, true⟩ ⟨[], [], 0⟩
      "a.pdf" "u" "c1" ["x"] 7 =
      (UploadResp.uploadError, ⟨[⟨"u", "c1", "pdf", some "a.pdf", none, 7⟩], [], 1⟩) ∧
    (RAG.save_retrievable_docs ⟨false, false, true, false, true, true⟩ ⟨[], [], 0⟩
      "a.pdf" "u" "c1" ["x"] 7).1 =
      (RAG.save_retrievable_docs ⟨false, false, false, false, true, true⟩ ⟨[], [], 0⟩
        "a.pdf" "u" "c1" ["x"] 7).1 ∧
    Qdrant.delete_content_by_id ⟨false, false, false, true, true, true⟩ ⟨[], [], 0⟩
      "coll" "c1" = (false, ⟨[], [], 0⟩) := by
  refine ⟨?_, ?_, ?_, ?_⟩
  · exact claim_C2_amended.1 ⟨false, false, true, false, true, true⟩ ⟨[], [], 0⟩
      "coll" "u" "c1" ["x"] rfl
  · exact claim_C2_amended.2.1 ⟨false, false, true, false, true, true⟩ ⟨[], [], 0⟩
      "a.pdf" "u" "c1" ["x"] 7 rfl rfl (by decide) (by decide)
  · exact claim_C2_amended.2.2.1 ⟨false, false, true, false, true, true⟩ ⟨[], [], 0⟩
      "a.pdf" "u" "c1" ["x"] 7 rfl (by decide) (by decide)
  · exact claim_C2_amended.2.2.2 ⟨false, false, false, true, true, true⟩ ⟨[], [], 0⟩
      "coll" "c1" rfl

/-- A store whose tenant "u" already holds `CONTENT_LIMIT = 10` web
content records. -/
def quotaFullStore : Store :=
  ⟨[⟨"u", "c0", "web", none, some "u0", 0⟩, ⟨"u", "c1", "web", none, some "u1", 1⟩,
    ⟨"u", "c2", "web", none, some "u2", 2⟩, ⟨"u", "c3", "web", none, some "u3", 3⟩,
    ⟨"u", "c4", "web", none, some "u4", 4⟩, ⟨"u", "c5", "web", none, some "u5", 5⟩,
    ⟨"u", "c6", "web", none, some "u6", 6⟩, ⟨"u", "c7", "web", none, some "u7", 7⟩,
    ⟨"u", "c8", "web", none, some "u8", 8⟩, ⟨"u", "c9", "web", none, some "u9", 9⟩],
   [], 0⟩

/-- C4, counterexample: tenant "u" is at the limit (10 records), yet a web
upload with an invalid URL is rejected with the URL-validation response,
not the quota-full response — `save_web_content` validates the URL before
the duplicate and quota checks, refuting "rejected with a quota-full
response regardless of the file's validity". -/
theorem claim_C4_counterexample :
    CONTENT_LIMIT ≤ MongoManager.get_content_count
      ⟨false, false, false, false, false, true⟩ quotaFullStore "u" ∧
    (RAG.save_web_content ⟨false, false, false, false, false, true⟩ quotaFullStore
      "not a url" "u" "c10" [] 10).1 = UploadResp.invalidUrl := by
  exact ⟨by decide, rfl⟩

/-- C4, amended: a tenant at or above the limit has its next non-duplicate
PDF upload rejected quota-full regardless of the file's validity, and its
next URL-valid non-duplicate web upload rejected quota-full; for web
uploads URL validation runs first, so an invalid URL is rejected with a
validation error instead of quota-full.  The duplicate-source check is
evaluated before the quota check (a duplicate wins even at full quota), and
every rejection leaves the store untouched — decided strictly before any
extraction/embedding work. -/
theorem claim_C4_amended :
    (∀ fl st fn uid cid chunks now,
      (MongoManager.get_user_content_files fl st uid "pdf").any
        (fun r => r.filename = some fn) = false →
      CONTENT_LIMIT ≤ MongoManager.get_content_count fl st uid →
      RAG.save_retrievable_docs fl st fn uid cid chunks now =
        (UploadResp.quotaFull (MongoManager.get_content_count fl st uid), st)) ∧
    (∀ fl st url uid cid chunks now, fl.urlValid = true →
      (MongoManager.get_user_content_files fl st uid "web").any
        (fun r => r.url = some url) = false →
      CONTENT_LIMIT ≤ MongoManager.get_content_count fl st uid →
      RAG.save_web_content fl st url uid cid chunks now =
        (UploadResp.quotaFull (MongoManager.get_content_count fl st uid), st)) ∧
    (∀ fl st fn uid cid chunks now,
      (MongoManager.get_user_content_files fl st uid "pdf").any
        (fun r => r.filename = some fn) = true →
      RAG.save_retrievable_docs fl st fn uid cid chunks now =
        (UploadResp.duplicate fn, st)) ∧
    (∀ fl st url uid cid chunks now, fl.urlValid = true →
      (MongoManager.get_user_content_files fl st uid "web").any
        (fun r => r.url = some url) = true →
      RAG.save_web_content fl st url uid cid chunks now =
        (UploadResp.duplicate url, st)) ∧
    (∀ fl st url uid cid chunks now, fl.urlValid = false →
      RAG.save_web_content fl st url uid cid chunks now = (UploadResp.invalidUrl, st)) := by
  refine ⟨?_, ?_, ?_, ?_, ?_⟩
  · intro fl st fn uid cid chunks now hdup hcount
    simp [RAG.save_retrievable_docs, hdup, hcount]
  · intro fl st url uid cid chunks now hurl hdup hcount
    simp [RAG.save_web_content, hurl, hdup, hcount]
  · intro fl st fn uid cid chunks now hdup
    simp [RAG.save_retrievable_docs, hdup]
  · intro fl st url uid cid chunks now hurl hdup
    simp [RAG.save_web_content, hurl, hdup]
  · intro fl st url uid cid chunks now hurl
    simp [RAG.save_web_content, hurl]

/-- C4, witness: the amended theorem at a concrete full-quota store — a
fresh PDF and a fresh valid-URL web upload are both rejected quota-full
with the store untouched; a duplicate at full quota still gets the
duplicate rejection; an invalid URL gets the validation rejection. -/
theorem claim_C4_witness :
    ((MongoManager.get_user_content_files ⟨false, false, false, false, true, true⟩
      quotaFullStore "u" "pdf").any (fun r => r.filename = some "a.pdf") = false) ∧
    CONTENT_LIMIT ≤ MongoManager.get_content_count
      ⟨false, false, false, false, true, true⟩ quotaFullStore "u" ∧
    RAG.save_retrievable_docs ⟨false, false, false, false, true, true⟩ quotaFullStore
      "a.pdf" "u" "c10" [] 10 =
      (UploadResp.quotaFull (MongoManager.get_content_count
        ⟨false, false, false, false, true, true⟩ quotaFullStore "u"), quotaFullStore) ∧
    RAG.save_web_content ⟨false, false, false, false, true, true⟩ quotaFullStore
      "u9new" "u" "c10" [] 10 =
      (UploadResp.quotaFull (MongoManager.get_content_count
        ⟨false, false, false, false, true, true⟩ quotaFullStore "u"), quotaFullStore) ∧
    RAG.save_retrievable_docs ⟨false, false, false, false, true, true⟩
      ⟨[⟨"u", "c0", "pdf", some "a.pdf", none, 0⟩], [], 0⟩ "a.pdf" "u" "c1" [] 1 =
      (UploadResp.duplicate "a.pdf", ⟨[⟨"u", "c0", "pdf", some "a.pdf", none, 0⟩], [], 0⟩) ∧
    RAG.save_web_content ⟨false, false, false, false, true, true⟩ quotaFullStore
      "u9" "u" "c10" [] 10 = (UploadResp.duplicate "u9", quotaFullStore) ∧
    RAG.save_web_content ⟨false, false, false, false, false, true⟩ quotaFullStore
      "u9" "u" "c10" [] 10 = (UploadResp.invalidUrl, quotaFullStore) := by
  refine ⟨by decide, by decide, ?_, ?_, ?_, ?_, ?_⟩
  · exact claim_C4_amended.1 ⟨false, false, false, false, true, true⟩ quotaFullStore
      "a.pdf" "u" "c10" [] 10 (by decide) (by decide)
  · exact claim_C4_amended.2.1 ⟨false, false, false, false, true, true⟩ quotaFullStore
      "u9new" "u" "c10" [] 10 rfl (by decide) (by decide)
  · exact claim_C4_amended.2.2.1 ⟨false, false, false, false, true, true⟩
      ⟨[⟨"u", "c0", "pdf", some "a.pdf", none, 0⟩], [], 0⟩ "a.pdf" "u" "c1" [] 1 (by decide)
  · exact claim_C4_amended.2.2.2.1 ⟨false, false, false, false, true, true⟩ quotaFullStore
      "u9" "u" "c10" [] 10 rfl (by decide)
  · exact claim_C4_amended.2.2.2.2 ⟨false, false, false, false, false, true⟩ quotaFullStore
      "u9" "u" "c10" [] 10 rfl

/-- C5: re-uploading a filename the tenant already has is rejected with
"PDF already exists." and the rejected call performs no storage mutation —
the returned store is exactly the input store, so no VectorPoints, no
ContentRecord and no extraction work; and any first upload that passes the
duplicate and quota gates with successful extraction does create the pdf
ContentRecord with that filename (the record is written before the staged
history append crashes, whatever the final response), so the second upload
of the same name is always in that rejected position. -/
theorem claim_C5 :
    (∀ fl st fn uid cid chunks now, fl.findFails = false →
      (∃ r ∈ st.records, r.user_id = uid ∧ r.content_type = "pdf" ∧
        r.filename = some fn) →
      RAG.save_retrievable_docs fl st fn uid cid chunks now =
        (UploadResp.duplicate fn, st)) ∧
    (∀ fl st fn uid cid chunks now, fl.extractionOk = true →
      (MongoManager.get_user_content_files fl st uid "pdf").any
        (fun r => r.filename = some fn) = false →
      MongoManager.get_content_count fl st uid < CONTENT_LIMIT →
      ∃ r ∈ (RAG.save_retrievable_docs fl st fn uid cid chunks now).2.records,
        r.user_id = uid ∧ r.content_type = "pdf" ∧ r.filename = some fn) := by
  constructor
  · intro fl st fn uid cid chunks now hfind hdup
    have hany : (MongoManager.get_user_content_files fl st uid "pdf").any
        (fun r => r.filename = some fn) = true := by
      obtain ⟨r, hr, hu, ht, hf⟩ := hdup
      rw [List.any_eq_true]
      refine ⟨r, ?_, by simp [hf]⟩
      simp only [MongoManager.get_user_content_files, hfind, Bool.false_eq_true, if_false]
      rw [List.mem_filter]
      exact ⟨hr, by simp [hu, ht]⟩
    simp [RAG.save_retrievable_docs, hany]
  · intro fl st fn uid cid chunks now hex hdup hcount
    refine ⟨⟨uid, cid, "pdf", some fn, none, now⟩, ?_, rfl, rfl, rfl⟩
    by_cases hup : fl.upsertFails = true <;>
      simp [RAG.save_retrievable_docs, hdup, Nat.not_le.mpr hcount, hex,
        Qdrant.upsert_data, hup, MongoManager.add_content_file,
        MemoryManager.add_memory, create_history_raises_eq_true]

/-- C5, witness: a store already holding ("u", "a.pdf") rejects the upload
with no state change; a first upload into the empty store creates the pdf
record for its filename. -/
theorem claim_C5_witness :
    ((⟨"u", "c0", "pdf", some "a.pdf", none, 0⟩ : ContentRec) ∈
      (⟨[⟨"u", "c0", "pdf", some "a.pdf", none, 0⟩], [], 0⟩ : Store).records) ∧
    RAG.save_retrievable_docs ⟨false, false, false, false, true, true⟩
      ⟨[⟨"u", "c0", "pdf", some "a.pdf", none, 0⟩], [], 0⟩ "a.pdf" "u" "c1" ["x"] 1 =
      (UploadResp.duplicate "a.pdf", ⟨[⟨"u", "c0", "pdf", some "a.pdf", none, 0⟩], [], 0⟩) ∧
    (∃ r ∈ (RAG.save_retrievable_docs ⟨false, false, false, false, true, true⟩
        ⟨[], [], 0⟩ "a.pdf" "u" "c1" ["x"] 1).2.records,
      r.user_id = "u" ∧ r.content_type = "pdf" ∧ r.filename = some "a.pdf") := by
  refine ⟨by decide, ?_, ?_⟩
  · exact claim_C5.1 ⟨false, false, false, false, true, true⟩
      ⟨[⟨"u", "c0", "pdf", some "a.pdf", none, 0⟩], [], 0⟩ "a.pdf" "u" "c1" ["x"] 1 rfl
      ⟨⟨"u", "c0", "pdf", some "a.pdf", none, 0⟩, by decide, rfl, rfl, rfl⟩
  · exact claim_C5.2 ⟨false, false, false, false, true, true⟩
      ⟨[], [], 0⟩ "a.pdf" "u" "c1" ["x"] 1 rfl (by decide) (by decide)

/-- C10: the quota check fails open on storage errors — when
`count_documents` raises, `MongoManager.get_content_count` returns 0, so a
non-duplicate upload is admitted past the quota gate even though the
tenant's true record count is at the limit: it is never rejected
quota-full, the extraction/embedding pipeline runs, and the ContentRecord
is created.  (The quota gate itself neither rejects nor fails the request;
in the staged sources the call's eventual response is the generic
upload-error one that the unrelated history-append `TypeError` forces on
every gate-passing upload.) -/
theorem claim_C10 :
    (∀ fl st uid, fl.countFails = true →
      MongoManager.get_content_count fl st uid = 0) ∧
    (∀ fl st fn uid cid chunks now, fl.countFails = true → fl.extractionOk = true →
      (MongoManager.get_user_content_files fl st uid "pdf").any
        (fun r => r.filename = some fn) = false →
      CONTENT_LIMIT ≤ (st.records.filter (fun r => r.user_id = uid)).length →
      (∀ n, (RAG.save_retrievable_docs fl st fn uid cid chunks now).1 ≠
        UploadResp.quotaFull n) ∧
      (RAG.save_retrievable_docs fl st fn uid cid chunks now).2.extractions =
        st.extractions + 1 ∧
      (⟨uid, cid, "pdf", some fn, none, now⟩ : ContentRec) ∈
        (RAG.save_retrievable_docs fl st fn uid cid chunks now).2.records) := by
  constructor
  · intro fl st uid h
    simp [MongoManager.get_content_count, h]
  · intro fl st fn uid cid chunks now hcount hex hdup _htrue
    have hzero : MongoManager.get_content_count fl st uid = 0 := by
      simp [MongoManager.get_content_count, hcount]
    refine ⟨?_, ?_, ?_⟩
    · intro n
      by_cases hup : fl.upsertFails = true <;>
        simp [RAG.save_retrievable_docs, hdup, hzero, CONTENT_LIMIT, hex,
          Qdrant.upsert_data, hup, MongoManager.add_content_file,
          MemoryManager.add_memory, create_history_raises_eq_true]
    · by_cases hup : fl.upsertFails = true <;>
        simp [RAG.save_retrievable_docs, hdup, hzero, CONTENT_LIMIT, hex,
          Qdrant.upsert_data, hup, MongoManager.add_content_file,
          MemoryManager.add_memory, create_history_raises_eq_true]
    · by_cases hup : fl.upsertFails = true <;>
        simp [RAG.save_retrievable_docs, hdup, hzero, CONTENT_LIMIT, hex,
          Qdrant.upsert_data, hup, MongoManager.add_content_file,
          MemoryManager.add_memory, create_history_raises_eq_true]

/-- C10, witness: tenant "u" truly holds 10 records (at the limit), the
count call fails so the quota reads 0, and the next upload is admitted
past the quota gate — not rejected quota-full, extraction performed, its
record created. -/
theorem claim_C10_witness :
    MongoManager.get_content_count ⟨false, true, false, false, true, true⟩
      quotaFullStore "u" = 0 ∧
    CONTENT_LIMIT ≤ (quotaFullStore.records.filter (fun r => r.user_id = "u")).length ∧
    (RAG.save_retrievable_docs ⟨false, true, false, false, true, true⟩ quotaFullStore
      "a.pdf" "u" "c10" ["x"] 10).1 ≠ UploadResp.quotaFull 10 ∧
    (RAG.save_retrievable_docs ⟨false, true, false, false, true, true⟩ quotaFullStore
      "a.pdf" "u" "c10" ["x"] 10).2.extractions = quotaFullStore.extractions + 1 ∧
    (⟨"u", "c10", "pdf", some "a.pdf", none, 10⟩ : ContentRec) ∈
      (RAG.save_retrievable_docs ⟨false, true, false, false, true, true⟩ quotaFullStore
        "a.pdf" "u" "c10" ["x"] 10).2.records := by
  have h := claim_C10.2 ⟨false, true, false, false, true, true⟩ quotaFullStore
    "a.pdf" "u" "c10" ["x"] 10 rfl rfl (by decide) (by decide)
  exact ⟨claim_C10.1 ⟨false, true, false, false, true, true⟩ quotaFullStore "u" rfl,
    by decide, h.1 10, h.2.1, h.2.2⟩

/-! ## Filtered similarity retrieval (src/app/storage/qdrant.py
`retrieve_similar_content`, src/app/rag/rag.py `query` /
`get_result_from_rag`) -/

/-- Python truthiness of the optional `user_id` argument: `if user_id:` is
taken only for a non-`None`, non-empty string. -/
def pyTruthyStr : Option String → Bool
  | none => false
  | some s => !(s == "")

/-- Python truthiness of the optional `content_ids` argument: `if
content_ids:` is taken only for a non-`None`, non-empty list. -/
def pyTruthyList : Option (List String) → Bool
  | none => false
  | some l => !l.isEmpty

/-- The `must` filter `retrieve_similar_content` builds: a `user_id`
`MatchValue` condition when `user_id` is truthy, plus a `content_id`
`MatchAny` condition when `content_ids` is truthy.  A point matches when
its payload satisfies every condition (a payload lacking the field matches
nothing). -/
def matchesFilters (uid : Option String) (cids : Option (List String))
    (p : Payload) : Bool :=
  (if pyTruthyStr uid then p.user_id == uid else true) &&
  (if pyTruthyList cids then
    (match p.content_id with
     | some c => (cids.getD []).contains c
     | none => false)
   else true)

/-- Ranking by similarity score, best first. -/
def Point.scoreGe (a b : Point) : Prop := b.score ≤ a.score

instance : DecidableRel Point.scoreGe := fun a b => Nat.decLe b.score a.score

/-- The vector backend's filtered similarity search (`client.query_points`
with `query_filter` and `limit`): the matching points ranked by score,
truncated to `top_k`.  Scores stand for the similarity of each stored
vector to the (fixed) query embedding. -/
def searchPoints (coll : List Point) (uid : Option String)
    (cids : Option (List String)) (top_k : Nat) : List Point :=
  (List.insertionSort Point.scoreGe
    (coll.filter (fun pt => matchesFilters uid cids pt.payload))).take top_k

/-- `Qdrant.retrieve_similar_content` before its outer `except`: ensure
the collection exists (`ensureFails` models that step raising), return `[]`
when the collection has zero points, embed the query, then run the
filtered search (`searchFails` models the search call or transport
raising) and return the hit payloads. -/
def Qdrant.retrieve_similar_content_impl (coll : List Point)
    (ensureFails searchFails : Bool) (uid : Option String)
    (cids : Option (List String)) (top_k : Nat) : Except String (List Payload) :=
  if ensureFails then Except.error "ensure_collection_exists failed"
  else if coll.length = 0 then Except.ok []
  else if searchFails then Except.error "query_points failed"
  else Except.ok ((searchPoints coll uid cids top_k).map Point.payload)

/-- `Qdrant.retrieve_similar_content`: the outer `except` catches every
exception, logs it and returns `[]` — the function never raises, which the
model renders by its plain `List Payload` return type. -/
def Qdrant.retrieve_similar_content (coll : List Point)
    (ensureFails searchFails : Bool) (uid : Option String)
    (cids : Option (List String)) (top_k : Nat) : List Payload :=
  match Qdrant.retrieve_similar_content_impl coll ensureFails searchFails uid
      cids top_k with
  | Except.ok l => l
  | Except.error _ => []

/-- The collections `RAG.query` addresses: the shared `VECTOR_COLLECTION`
plus one collection per tenant, named by the tenant's user id. -/
structure Collections where
  general : List Point
  tenant : String → List Point

/-- `RAG.query`: with `filter=True` it searches the tenant's collection
(named `user_id`) passing `user_id` and the optional `content_ids` as
filters with `top_k=10`; with `filter=False` it searches the shared
collection with no filters. -/
def RAG.query (colls : Collections) (ensureFails searchFails : Bool)
    (user_id : String) (filter : Bool) (content_ids : Option (List String)) :
    List Payload :=
  if filter then
    Qdrant.retrieve_similar_content (colls.tenant user_id) ensureFails searchFails
      (some user_id) content_ids 10
  else
    Qdrant.retrieve_similar_content colls.general ensureFails searchFails none none 10

/-- `retrieve_similar_content` returns either `[]` or the ranked filtered
hits — the two arms of the `except` handling. -/
theorem retrieve_eq_nil_or_search (coll : List Point)
    (eF sF : Bool) (uid : Option String) (cids : Option (List String)) (k : Nat) :
    Qdrant.retrieve_similar_content coll eF sF uid cids k = [] ∨
    Qdrant.retrieve_similar_content coll eF sF uid cids k =
      (searchPoints coll uid cids k).map Point.payload := by
  unfold Qdrant.retrieve_similar_content Qdrant.retrieve_similar_content_impl
  cases eF
  · by_cases h0 : coll.length = 0
    · simp [h0]
    · cases sF
      · simp [h0]
      · simp [h0]
  · simp

/-- Any point delivered by the backend search satisfies the filter it was
given. -/
theorem mem_searchPoints_matches {coll : List Point} {uid : Option String}
    {cids : Option (List String)} {k : Nat} {pt : Point}
    (h : pt ∈ searchPoints coll uid cids k) :
    matchesFilters uid cids pt.payload = true := by
  have h1 : pt ∈ List.insertionSort Point.scoreGe
      (coll.filter (fun q => matchesFilters uid cids q.payload)) :=
    List.take_subset _ _ h
  have h2 : pt ∈ coll.filter (fun q => matchesFilters uid cids q.payload) :=
    (List.mem_insertionSort Point.scoreGe).mp h1
  exact (List.mem_filter.mp h2).2

/-- C6: a tenant-scoped retrieval (`RAG.query` with `filter=True`, backed
by `retrieve_similar_content` with `user_id` and `content_ids` filters)
only ever returns payloads whose `user_id` equals the tenant and whose
`content_id` is one of the requested ids — never another tenant's or
another content item's payloads. -/
theorem claim_C6 (colls : Collections) (eF sF : Bool) (A : String)
    (Xs : List String) (p : Payload) (hA : A ≠ "") (hXs : Xs ≠ [])
    (hp : p ∈ RAG.query colls eF sF A true (some Xs)) :
    p.user_id = some A ∧ ∃ x ∈ Xs, p.content_id = some x := by
  simp only [RAG.query, if_true] at hp
  rcases retrieve_eq_nil_or_search (colls.tenant A) eF sF (some A) (some Xs) 10 with
    hnil | hsearch
  · rw [hnil] at hp
    simp at hp
  · rw [hsearch] at hp
    obtain ⟨pt, hpt, hpay⟩ := List.mem_map.mp hp
    have hm := mem_searchPoints_matches hpt
    rw [hpay] at hm
    simp only [matchesFilters, Bool.and_eq_true] at hm
    obtain ⟨hu, hc⟩ := hm
    have htu : pyTruthyStr (some A) = true := by
      simp [pyTruthyStr]
      intro h
      exact hA h
    have htc : pyTruthyList (some Xs) = true := by
      simp [pyTruthyList, hXs]
    rw [htu, if_pos rfl] at hu
    rw [htc, if_pos rfl] at hc
    constructor
    · exact eq_of_beq hu
    · cases hcid : p.content_id with
      | none => rw [hcid] at hc; simp at hc
      | some c =>
        rw [hcid] at hc
        simp only [Option.getD] at hc
        exact ⟨c, by simpa using hc, rfl⟩

/-- C6, witness: a tenant collection holding a matching point (tenant "A",
content "X") and a foreign point (tenant "B", content "Y"); the scoped
query returns the matching payload, and the theorem yields its isolation
properties. -/
theorem claim_C6_witness :
    ("A" ≠ "") ∧ ((["X"] : List String) ≠ []) ∧
    ((⟨some "A", some "X", "t1"⟩ : Payload) ∈
      RAG.query ⟨[], fun _ => [⟨"p1", 5, ⟨some "A", some "X", "t1"⟩⟩,
        ⟨"p2", 9, ⟨some "B", some "Y", "t2"⟩⟩]⟩ false false "A" true (some ["X"])) ∧
    ((⟨some "A", some "X", "t1"⟩ : Payload).user_id = some "A" ∧
      ∃ x ∈ ["X"], (⟨some "A", some "X", "t1"⟩ : Payload).content_id = some x) := by
  refine ⟨by decide, by decide, by decide, ?_⟩
  exact claim_C6 ⟨[], fun _ => [⟨"p1", 5, ⟨some "A", some "X", "t1"⟩⟩,
      ⟨"p2", 9, ⟨some "B", some "Y", "t2"⟩⟩]⟩ false false "A" ["X"]
    ⟨some "A", some "X", "t1"⟩ (by decide) (by decide) (by decide)

/-- C7: `retrieve_similar_content` never raises (its model has the plain
`List Payload` return type): an empty collection yields `[]`, any caught
transport/backend error (collection-ensure or search step raising) yields
`[]`, and zero matching points also yield `[]` rather than an error. -/
theorem claim_C7 (coll : List Point) (eF sF : Bool) (uid : Option String)
    (cids : Option (List String)) (k : Nat) :
    (coll = [] → Qdrant.retrieve_similar_content coll eF sF uid cids k = []) ∧
    ((eF = true ∨ sF = true) →
      Qdrant.retrieve_similar_content coll eF sF uid cids k = []) ∧
    ((∀ pt ∈ coll, matchesFilters uid cids pt.payload = false) →
      Qdrant.retrieve_similar_content coll eF sF uid cids k = []) := by
  refine ⟨?_, ?_, ?_⟩
  · intro h
    subst h
    unfold Qdrant.retrieve_similar_content Qdrant.retrieve_similar_content_impl
    cases eF <;> simp
  · intro h
    unfold Qdrant.retrieve_similar_content Qdrant.retrieve_similar_content_impl
    rcases h with he | hs
    · subst he; simp
    · subst hs
      cases eF
      · by_cases h0 : coll.length = 0 <;> simp [h0]
      · simp
  · intro h
    have hfil : coll.filter (fun pt => matchesFilters uid cids pt.payload) = [] := by
      rw [List.filter_eq_nil_iff]
      intro a ha
      simp [h a ha]
    rcases retrieve_eq_nil_or_search coll eF sF uid cids k with hnil | hsearch
    · exact hnil
    · rw [hsearch]
      simp [searchPoints, hfil]

/-- C7, witness: an empty collection, a failing backend, and a collection
whose only point matches neither the tenant nor the content filter, each
produce the empty result. -/
theorem claim_C7_witness :
    Qdrant.retrieve_similar_content [] false false none none 10 = [] ∧
    Qdrant.retrieve_similar_content [⟨"p1", 5, ⟨some "A", some "X", "t"⟩⟩] true true
      none none 10 = [] ∧
    Qdrant.retrieve_similar_content [⟨"p2", 9, ⟨some "B", some "Y", "t"⟩⟩] false false
      (some "A") (some ["X"]) 10 = [] := by
  refine ⟨?_, ?_, ?_⟩
  · exact (claim_C7 [] false false none none 10).1 rfl
  · exact (claim_C7 [⟨"p1", 5, ⟨some "A", some "X", "t"⟩⟩] true true
      none none 10).2.1 (Or.inl rfl)
  · exact (claim_C7 [⟨"p2", 9, ⟨some "B", some "Y", "t"⟩⟩] false false
      (some "A") (some ["X"]) 10).2.2 (by decide)

/-- `RAG.get_result_from_rag`'s context assembly: `result1` is the shared
(general) query, `result2` the tenant query with `filter=True`, and
`combined_results` is built by extending an empty list with `result1` and
then `result2` (both are lists, so both `isinstance` guards pass). -/
def RAG.get_result_from_rag_combined (colls : Collections) (eF sF : Bool)
    (user_id : String) (content_ids : Option (List String)) : List Payload :=
  let result1 := RAG.query colls eF sF user_id false none
  let result2 := RAG.query colls eF sF user_id true content_ids
  let combined : List Payload := []
  let combined := combined ++ result1
  let combined := combined ++ result2
  combined

/-- C9: the context the retrieval merger passes onward is exactly the
shared-collection results followed by the tenant-collection results — the
shared results form the initial segment and the tenant results the final
segment, with no cross-set re-ranking. -/
theorem claim_C9 (colls : Collections) (eF sF : Bool) (uid : String)
    (cids : Option (List String)) :
    RAG.get_result_from_rag_combined colls eF sF uid cids =
      RAG.query colls eF sF uid false none ++ RAG.query colls eF sF uid true cids ∧
    (RAG.get_result_from_rag_combined colls eF sF uid cids).take
        (RAG.query colls eF sF uid false none).length =
      RAG.query colls eF sF uid false none ∧
    (RAG.get_result_from_rag_combined colls eF sF uid cids).drop
        (RAG.query colls eF sF uid false none).length =
      RAG.query colls eF sF uid true cids := by
  refine ⟨?_, ?_, ?_⟩
  · simp [RAG.get_result_from_rag_combined]
  · simp [RAG.get_result_from_rag_combined, List.take_left]
  · simp [RAG.get_result_from_rag_combined, List.drop_left]

/-! ## Chunker (src/app/rag/utils/content_processor.py
`chunk_by_sections` / `chunk_text_recursive`).  Text is `List Char` here;
`chunk_text_recursive` constructs a langchain
`RecursiveCharacterTextSplitter(chunk_size=1000, chunk_overlap=200,
separators=["\n\n", "\n", ".", "!", "?", ",", " ", ""])`, whose splitting
algorithm (an external library dependency of the repository) is embedded
below following its documented behaviour: pick the first separator that is
empty or occurs in the text, split keeping separators, greedily merge small
pieces up to the chunk size retaining an overlap, and recurse into
oversized pieces with the remaining separators. -/

/-- `chunk_size=1000`, the threshold in `chunk_by_sections` and the
splitter's chunk size. -/
def chunkSize : Nat := 1000

/-- `chunk_overlap=200`. -/
def chunkOverlap : Nat := 200

/-- Python `str.strip()`. -/
def stripT (t : List Char) : List Char :=
  ((t.dropWhile Char.isWhitespace).reverse.dropWhile Char.isWhitespace).reverse

/-- `startsWith sep t`: `sep` is a leading segment of `t`. -/
def startsWith : List Char → List Char → Bool
  | [], _ => true
  | _ :: _, [] => false
  | a :: as, b :: bs => a == b && startsWith as bs

/-- First occurrence of the separator inside `t`: the text before it and
the text after it (`none` when the separator does not occur). -/
def findSplit (sep : List Char) : List Char → Option (List Char × List Char)
  | [] => none
  | c :: rest =>
    if startsWith sep (c :: rest) then some ([], (c :: rest).drop sep.length)
    else
      match findSplit sep rest with
      | some (b, a) => some (c :: b, a)
      | none => none

/-- `re.search(separator, text)` for a literal separator. -/
def occurs (sep t : List Char) : Bool := (findSplit sep t).isSome

/-- The remainder returned by `findSplit` is strictly shorter than the
input when the separator is non-empty. -/
theorem findSplit_snd_lt (sep : List Char) (hs : sep ≠ []) :
    ∀ t b a, findSplit sep t = some (b, a) → a.length < t.length := by
  intro t
  induction t with
  | nil => intro b a h; simp [findSplit] at h
  | cons c rest ih =>
    intro b a h
    have hsep : 1 ≤ sep.length := by
      cases sep with
      | nil => exact absurd rfl hs
      | cons x xs => simp
    simp only [findSplit] at h
    split at h
    · have ha : a = (c :: rest).drop sep.length := by
        have := (Option.some.injEq _ _).mp h
        exact (Prod.mk.injEq _ _ _ _).mp this |>.2.symm
      rw [ha, List.length_drop]
      simp only [List.length_cons]
      omega
    · cases hfs : findSplit sep rest with
      | none => rw [hfs] at h; simp at h
      | some pr =>
        rw [hfs] at h
        obtain ⟨b', a'⟩ := pr
        have ha : a = a' := by
          have := (Option.some.injEq _ _).mp h
          exact (Prod.mk.injEq _ _ _ _).mp this |>.2.symm
        have := ih b' a' hfs
        rw [ha]
        simp only [List.length_cons]
        omega

/-- `re.split` with a literal non-empty separator: the pieces between
occurrences, scanning left to right. -/
def rawSplit (sep : List Char) (hs : sep ≠ []) (t : List Char) : List (List Char) :=
  match hfs : findSplit sep t with
  | none => [t]
  | some (b, a) => b :: rawSplit sep hs a
termination_by t.length
decreasing_by exact findSplit_snd_lt sep hs t b a hfs

/-- langchain `_split_text_with_regex` with `keep_separator=True`: split on
the separator, re-attach each separator occurrence to the front of the
following piece, and drop empty pieces; the empty separator splits into
single characters (`list(text)`). -/
def splitWithSep (sep : List Char) (t : List Char) : List (List Char) :=
  if hs : sep = [] then t.map (fun c => [c])
  else
    match rawSplit sep hs t with
    | [] => []
    | p :: ps => (p :: ps.map (fun q => sep ++ q)).filter (fun q => !q.isEmpty)

/-- Total character length of a run of splits (the `total` counter of
`_merge_splits`; the join separator is `""` because `keep_separator=True`,
so separators contribute nothing). -/
def sumLen (l : List (List Char)) : Nat := (l.map List.length).sum

/-- Concatenation of the current document's splits (`separator.join` with
separator `""`). -/
def concatAll (l : List (List Char)) : List Char := l.foldr (· ++ ·) []

/-- The overlap-retention loop of langchain `_merge_splits`: pop leading
splits while the running total exceeds the overlap, or while it would
overflow the chunk size together with the incoming split. -/
def shrinkCur (dlen : Nat) : List (List Char) → List (List Char)
  | [] => []
  | x :: xs =>
    if chunkOverlap < sumLen (x :: xs) ∨
        (chunkSize < sumLen (x :: xs) + dlen ∧ 0 < sumLen (x :: xs)) then
      shrinkCur dlen xs
    else x :: xs

/-- langchain `_join_docs`: join the current document and strip it; an
empty result yields no chunk. -/
def emitDoc (cur : List (List Char)) : List (List Char) :=
  if (stripT (concatAll cur)).isEmpty then [] else [stripT (concatAll cur)]

/-- langchain `_merge_splits` main loop: greedily pack splits into the
current document while the total stays within `chunkSize`; on overflow emit
the joined, stripped document and retain an overlap suffix of it. -/
def mergeGo : List (List Char) → List (List Char) → List (List Char)
  | cur, [] => emitDoc cur
  | cur, d :: ds =>
    if chunkSize < sumLen cur + d.length then
      emitDoc cur ++ mergeGo (shrinkCur d.length cur ++ [d]) ds
    else mergeGo (cur ++ [d]) ds

/-- The good-splits accumulation loop of langchain `_split_text`: pieces
shorter than `chunkSize` are collected and merged; an oversized piece
flushes the collected run and is handled by `f` (recursion into the
remaining separators, or emission as-is when none remain). -/
def processSplits (f : List Char → List (List Char)) :
    List (List Char) → List (List Char) → List (List Char)
  | good, [] => if good.isEmpty then [] else mergeGo [] good
  | good, d :: ds =>
    if d.length < chunkSize then processSplits f (good ++ [d]) ds
    else
      (if good.isEmpty then [] else mergeGo [] good) ++ f d ++ processSplits f [] ds

/-- langchain `RecursiveCharacterTextSplitter._split_text` over the
separator cascade. -/
def splitTextRec : List (List Char) → List Char → List (List Char)
  | [], t => [t]
  | s :: rest, t =>
    if s = [] then processSplits (fun d => [d]) [] (splitWithSep [] t)
    else if occurs s t then
      processSplits (fun d => if rest.isEmpty then [d] else splitTextRec rest d) []
        (splitWithSep s t)
    else splitTextRec rest t
termination_by seps _ => seps.length
decreasing_by all_goals simp [List.length_cons]

/-- The separator cascade `["\n\n", "\n", ".", "!", "?", ",", " ", ""]`. -/
def SEPS : List (List Char) :=
  [['\n', '\n'], ['\n'], ['.'], ['!'], ['?'], [','], [' '], []]

/-- `ContentProcessor.chunk_text_recursive`: the recursive splitter with
`chunk_size=1000`, `chunk_overlap=200` and the cascading separator list. -/
def ContentProcessor.chunk_text_recursive (t : List Char) : List (List Char) :=
  splitTextRec SEPS t

/-- The flush step of `chunk_by_sections` for one accumulated section:
skipped when it strips to nothing, recursively split when longer than 1000
characters, otherwise emitted stripped as a single chunk. -/
def flushSection (cur : List Char) : List (List Char) :=
  if (stripT cur).isEmpty then []
  else if chunkSize < cur.length then ContentProcessor.chunk_text_recursive cur
  else [stripT cur]

/-- The accumulation loop of `chunk_by_sections` over the regex-split
pieces: a piece matching the section-heading pattern flushes the current
section and starts the next one with itself; any other piece is appended to
the current section; the final section is flushed at the end. -/
def sectionsLoop (isHeading : List Char → Bool) :
    List Char → List (List Char) → List (List Char)
  | cur, [] => flushSection cur
  | cur, sec :: rest =>
    if isHeading sec then flushSection cur ++ sectionsLoop isHeading sec rest
    else sectionsLoop isHeading (cur ++ sec) rest

/-- `ContentProcessor.chunk_by_sections`, over the pre-split piece list:
`re.split` with the capturing combined heading pattern is abstracted as the
input pieces together with the heading predicate `isHeading` standing for
`re.match(combined_pattern, section)`. -/
def ContentProcessor.chunk_by_sections (isHeading : List Char → Bool)
    (sections : List (List Char)) : List (List Char) :=
  sectionsLoop isHeading [] sections

/-- Stripping never lengthens a text. -/
theorem length_stripT_le (t : List Char) : (stripT t).length ≤ t.length := by
  unfold stripT
  calc ((t.dropWhile Char.isWhitespace).reverse.dropWhile Char.isWhitespace).reverse.length
      = ((t.dropWhile Char.isWhitespace).reverse.dropWhile Char.isWhitespace).length :=
        List.length_reverse _
    _ ≤ (t.dropWhile Char.isWhitespace).reverse.length :=
        List.Sublist.length_le (List.dropWhile_sublist _)
    _ = (t.dropWhile Char.isWhitespace).length := List.length_reverse _
    _ ≤ t.length := List.Sublist.length_le (List.dropWhile_sublist _)

/-- The joined document has exactly the tracked total length. -/
theorem length_concatAll (l : List (List Char)) : (concatAll l).length = sumLen l := by
  induction l with
  | nil => rfl
  | cons x xs ih =>
    simp only [concatAll, List.foldr_cons, List.length_append, sumLen, List.map_cons,
      List.sum_cons] at ih ⊢
    omega

/-- `sumLen` is additive over append. -/
theorem sumLen_append (a b : List (List Char)) :
    sumLen (a ++ b) = sumLen a + sumLen b := by
  simp [sumLen]

/-- `sumLen` of a single split. -/
theorem sumLen_singleton (d : List Char) : sumLen [d] = d.length := by
  simp [sumLen]

/-- After the overlap-retention loop, the retained prefix fits within the
overlap and either leaves room for the incoming split or is empty. -/
theorem shrinkCur_post (dlen : Nat) (cur : List (List Char)) :
    sumLen (shrinkCur dlen cur) ≤ chunkOverlap ∧
    (sumLen (shrinkCur dlen cur) + dlen ≤ chunkSize ∨
      sumLen (shrinkCur dlen cur) = 0) := by
  induction cur with
  | nil => simp [shrinkCur, sumLen, chunkOverlap]
  | cons x xs ih =>
    simp only [shrinkCur]
    split
    · exact ih
    · rename_i hcond
      push_neg at hcond
      obtain ⟨h1, h2⟩ := hcond
      refine ⟨h1, ?_⟩
      by_cases h3 : chunkSize < sumLen (x :: xs) + dlen
      · have := h2 h3
        omega
      · omega

/-- An emitted document is no longer than the current total. -/
theorem emitDoc_bound {cur : List (List Char)} (h : sumLen cur ≤ chunkSize) :
    ∀ c ∈ emitDoc cur, c.length ≤ chunkSize := by
  intro c hc
  simp only [emitDoc] at hc
  split at hc
  · simp at hc
  · simp only [List.mem_singleton] at hc
    subst hc
    calc (stripT (concatAll cur)).length ≤ (concatAll cur).length := length_stripT_le _
      _ = sumLen cur := length_concatAll _
      _ ≤ chunkSize := h

/-- Every document produced by the merge loop stays within the chunk size,
provided the current document does and every incoming split is below the
chunk size. -/
theorem mergeGo_bound : ∀ (splits cur : List (List Char)),
    sumLen cur ≤ chunkSize → (∀ d ∈ splits, d.length < chunkSize) →
    ∀ c ∈ mergeGo cur splits, c.length ≤ chunkSize := by
  intro splits
  induction splits with
  | nil =>
    intro cur hcur _ c hc
    simp only [mergeGo] at hc
    exact emitDoc_bound hcur c hc
  | cons d ds ih =>
    intro cur hcur hds c hc
    simp only [mergeGo] at hc
    split at hc
    · rw [List.mem_append] at hc
      rcases hc with h1 | h2
      · exact emitDoc_bound hcur c h1
      · refine ih (shrinkCur d.length cur ++ [d]) ?_ ?_ c h2
        · have hp := shrinkCur_post d.length cur
          have hd : d.length < chunkSize := hds d (List.mem_cons_self d ds)
          rw [sumLen_append, sumLen_singleton]
          rcases hp.2 with h | h <;> omega
        · intro e he
          exact hds e (List.mem_cons_of_mem d he)
    · rename_i hno
      refine ih (cur ++ [d]) ?_ ?_ c hc
      · rw [sumLen_append, sumLen_singleton]
        omega
      · intro e he
        exact hds e (List.mem_cons_of_mem d he)

/-- Every chunk produced by the good-splits loop stays within the chunk
size, provided the handler for oversized pieces does. -/
theorem processSplits_bound (f : List Char → List (List Char)) :
    ∀ splits good, (∀ g ∈ good, g.length < chunkSize) →
    (∀ d ∈ splits, chunkSize ≤ d.length → ∀ c ∈ f d, c.length ≤ chunkSize) →
    ∀ c ∈ processSplits f good splits, c.length ≤ chunkSize := by
  intro splits
  induction splits with
  | nil =>
    intro good hgood _ c hc
    simp only [processSplits] at hc
    split at hc
    · simp at hc
    · exact mergeGo_bound good [] (by simp [sumLen]) hgood c hc
  | cons d ds ih =>
    intro good hgood hf c hc
    simp only [processSplits] at hc
    split at hc
    · rename_i hsmall
      refine ih (good ++ [d]) ?_ ?_ c hc
      · intro g hg
        rw [List.mem_append] at hg
        rcases hg with h | h
        · exact hgood g h
        · simp only [List.mem_singleton] at h
          subst h
          exact hsmall
      · intro e he hbig
        exact hf e (List.mem_cons_of_mem d he) hbig
    · rename_i hbig
      rw [List.mem_append, List.mem_append] at hc
      rcases hc with (h1 | h2) | h3
      · split at h1
        · simp at h1
        · exact mergeGo_bound good [] (by simp [sumLen]) hgood c h1
      · exact hf d (List.mem_cons_self d ds) (Nat.le_of_not_lt hbig) c h2
      · exact ih [] (by simp) (fun e he hb => hf e (List.mem_cons_of_mem d he) hb) c h3

/-- Splitting on the empty separator produces single characters. -/
theorem mem_splitWithSep_nil_length {t c : List Char}
    (h : c ∈ splitWithSep [] t) : c.length = 1 := by
  simp only [splitWithSep, dite_true] at h
  obtain ⟨a, _, rfl⟩ := List.mem_map.mp h
  rfl

/-- The main bound: with the empty separator in the cascade, every chunk
the recursive splitter emits has length at most `chunkSize`. -/
theorem splitTextRec_bound : ∀ (seps : List (List Char)) (t : List Char), [] ∈ seps →
    ∀ c ∈ splitTextRec seps t, c.length ≤ chunkSize := by
  intro seps
  induction seps with
  | nil =>
    intro t h
    simp at h
  | cons s rest ih =>
    intro t hmem c hc
    simp only [splitTextRec] at hc
    split at hc
    · refine processSplits_bound _ _ [] (by simp) ?_ c hc
      intro d hd hbig
      exfalso
      have h1 := mem_splitWithSep_nil_length hd
      have h2 : chunkSize = 1000 := rfl
      omega
    · rename_i hse
      have hrest : [] ∈ rest := by
        rcases List.mem_cons.mp hmem with h | h
        · exact absurd h.symm hse
        · exact h
      split at hc
      · refine processSplits_bound _ _ [] (by simp) ?_ c hc
        intro d hd hbig c' hc'
        cases rest with
        | nil => simp at hrest
        | cons r rs =>
          simp only [List.isEmpty_cons, Bool.false_eq_true, if_false] at hc'
          exact ih d hrest c' hc'
      · exact ih t hrest c hc

/-- Every chunk a section flush emits stays within the chunk size: a short
section becomes its stripped self, a long one goes through the recursive
splitter. -/
theorem flushSection_bound : ∀ cur, ∀ c ∈ flushSection cur, c.length ≤ chunkSize := by
  intro cur c hc
  simp only [flushSection] at hc
  split at hc
  · simp at hc
  · split at hc
    · rename_i h1 h2
      simp only [ContentProcessor.chunk_text_recursive] at hc
      exact splitTextRec_bound SEPS cur (by decide) c hc
    · rename_i h1 h2
      simp only [List.mem_singleton] at hc
      subst hc
      have := length_stripT_le cur
      omega

/-- Every chunk of the accumulation loop stays within the chunk size. -/
theorem sectionsLoop_bound (f : List Char → Bool) :
    ∀ secs cur, ∀ c ∈ sectionsLoop f cur secs, c.length ≤ chunkSize := by
  intro secs
  induction secs with
  | nil =>
    intro cur c hc
    simp only [sectionsLoop] at hc
    exact flushSection_bound cur c hc
  | cons sec rest ih =>
    intro cur c hc
    simp only [sectionsLoop] at hc
    split at hc
    · rw [List.mem_append] at hc
      rcases hc with h | h
      · exact flushSection_bound cur c h
      · exact ih sec c h
    · exact ih (cur ++ sec) c hc

/-- C8: every chunk `chunk_by_sections` emits respects the size bound — no
chunk exceeds `chunkSize = 1000` characters (so none exceeds the
configured max by even the recursive splitter's smallest unit) — and a
detected section that strips to something non-empty becomes the single
chunk `[strip(section)]` exactly when its length is at most the 1000
threshold; longer sections go through the recursive splitter. -/
theorem claim_C8 :
    (∀ (isHeading : List Char → Bool) (sections : List (List Char)),
      ∀ c ∈ ContentProcessor.chunk_by_sections isHeading sections,
        c.length ≤ chunkSize) ∧
    (∀ s, (stripT s).isEmpty = false → s.length ≤ chunkSize →
      flushSection s = [stripT s]) := by
  constructor
  · intro f sections c hc
    simp only [ContentProcessor.chunk_by_sections] at hc
    exact sectionsLoop_bound f sections [] c hc
  · intro s h1 h2
    unfold flushSection
    rw [if_neg (by simp [h1]), if_neg (by omega)]

/-- C8, witness: a two-character non-heading piece flows through
`chunk_by_sections` as a single stripped chunk within the bound, and a
short section flushes to exactly its stripped self. -/
theorem claim_C8_witness :
    ((['a', 'b'] : List Char) ∈
      ContentProcessor.chunk_by_sections (fun _ => false) [['a', 'b']]) ∧
    (['a', 'b'] : List Char).length ≤ chunkSize ∧
    ((stripT ['h', 'i']).isEmpty = false) ∧
    (['h', 'i'] : List Char).length ≤ chunkSize ∧
    flushSection ['h', 'i'] = [stripT ['h', 'i']] := by
  refine ⟨by decide, ?_, by decide, by decide, ?_⟩
  · exact claim_C8.1 (fun _ => false) [['a', 'b']] ['a', 'b'] (by decide)
  · exact claim_C8.2 ['h', 'i'] (by decide) (by decide)
